import Mathlib

/-!
Verification development for the houdini client runtime.

The selection-driven marshal/unmarshal layer (the Type Coercion Walker of
spec section 4.2, exercised by the scalars test file) and the request
context input marshalling are embedded below, together with the kit load
generator from src/vite/transforms/kit/load.ts.
-/

namespace Houdini

/-- Plain structured data values as they appear in response and variable
payloads: null, undefined, scalars (numbers, strings, booleans), the
application-side Date representation (epoch milliseconds), sequences and
keyed structures. -/
inductive JValue where
  | vnull
  | vundef
  | vint (n : Int)
  | vstr (s : String)
  | vbool (b : Bool)
  | vdate (ms : Int)
  | vlist (xs : List JValue)
  | vobj (fs : List (String × JValue))

/-- True exactly for the two absent values, null and undefined. -/
def JValue.isAbsent : JValue → Bool
  | .vnull => true
  | .vundef => true
  | _ => false

/-- True exactly for sequence values. -/
def JValue.isList : JValue → Bool
  | .vlist _ => true
  | _ => false

/-- True exactly for keyed structures. -/
def JValue.isObj : JValue → Bool
  | .vobj _ => true
  | _ => false

/-- Selection Node of spec section 3: a declared type name, the effective
response key, and optional nested sub-selections keyed by field alias.
A node with no fields is a leaf (scalar or enum). -/
inductive SelNode where
  | mk (type : String) (keyRaw : String) (fields : Option (List (String × SelNode)))

def SelNode.type : SelNode → String
  | .mk t _ _ => t

def SelNode.keyRaw : SelNode → String
  | .mk _ k _ => k

def SelNode.fields : SelNode → Option (List (String × SelNode))
  | .mk _ _ f => f

/-- Direction of coercion: marshal (application to wire) or unmarshal
(wire to application). -/
inductive Direction where
  | marshal
  | unmarshal
deriving DecidableEq

/-- Custom Scalar Descriptor of spec section 3: the corresponding
application type name and the two optional coercion functions. -/
structure ScalarDescriptor where
  type : String
  unmarshal : Option (JValue → JValue)
  marshal : Option (JValue → JValue)

/-- Scalar Registry: mapping from scalar type name to its descriptor. -/
abbrev ScalarMap := List (String × ScalarDescriptor)

/-- Error raised by the walker when a registry entry lacks the function
required for the current direction; it names the scalar type. -/
inductive CoerceError where
  | scalarFunctionMissing (dir : Direction) (typeName : String)

/-- Name of the scalar type an error complains about. -/
def CoerceError.typeName : CoerceError → String
  | .scalarFunctionMissing _ t => t

/-- First-match lookup in an association list with string keys. -/
def lookupStr {α : Type} (k : String) : List (String × α) → Option α
  | [] => none
  | (k', v) :: rest => if k' = k then some v else lookupStr k rest

/-- Modelled from the spec: the leaf step of the Type Coercion Walker
(spec section 4.2, implemented by the scalars module absent from src).
If the declared type matches a registry entry, the matching direction
function is invoked; if that entry lacks the required function the walk
fails with an error naming the scalar type; a leaf whose type has no
registry entry (built-in scalars and enums) is passed through unchanged. -/
def coerceLeaf (dir : Direction) (scalars : ScalarMap) (t : String) (v : JValue) :
    Except CoerceError JValue :=
  match lookupStr t scalars with
  | none => .ok v
  | some d =>
    match dir with
    | .unmarshal =>
      match d.unmarshal with
      | some f => .ok (f v)
      | none => .error (.scalarFunctionMissing .unmarshal t)
    | .marshal =>
      match d.marshal with
      | some f => .ok (f v)
      | none => .error (.scalarFunctionMissing .marshal t)

mutual

/-- Modelled from the spec: the Type Coercion Walker (spec section 4.2,
implemented by unmarshalSelection and marshalSelection in the scalars
module absent from src; behaviour pinned down by its test file).
Null and undefined are returned as-is before anything else; a sequence is
mapped elementwise with the same selection node (arbitrary nesting of
sequences is supported by recursing while the value remains a sequence);
a leaf node delegates to coerceLeaf; a node with fields recurses per field
of the value, passing through keys that are not in the selection fields
unchanged; a non-keyed value under a fields node is passed through. -/
def coerceValue (dir : Direction) (scalars : ScalarMap) (node : SelNode) :
    JValue → Except CoerceError JValue
  | .vnull => .ok .vnull
  | .vundef => .ok .vundef
  | .vlist xs =>
    match coerceList dir scalars node xs with
    | .error e => .error e
    | .ok ys => .ok (.vlist ys)
  | v =>
    match node.fields with
    | none => coerceLeaf dir scalars node.type v
    | some flds =>
      match v with
      | .vobj kvs =>
        match coerceFields dir scalars flds kvs with
        | .error e => .error e
        | .ok out => .ok (.vobj out)
      | _ => .ok v

/-- Elementwise application of the walker over a sequence. -/
def coerceList (dir : Direction) (scalars : ScalarMap) (node : SelNode) :
    List JValue → Except CoerceError (List JValue)
  | [] => .ok []
  | x :: xs =>
    match coerceValue dir scalars node x with
    | .error e => .error e
    | .ok y =>
      match coerceList dir scalars node xs with
      | .error e => .error e
      | .ok ys => .ok (y :: ys)

/-- Per-field recursion of the walker over a keyed structure: a key that
appears in the selection fields is coerced with the corresponding child
node, any other key is passed through unchanged. -/
def coerceFields (dir : Direction) (scalars : ScalarMap)
    (flds : List (String × SelNode)) :
    List (String × JValue) → Except CoerceError (List (String × JValue))
  | [] => .ok []
  | (k, v) :: rest =>
    match
      (match lookupStr k flds with
       | none => Except.ok v
       | some child => coerceValue dir scalars child v) with
    | .error e => .error e
    | .ok v' =>
      match coerceFields dir scalars flds rest with
      | .error e => .error e
      | .ok rest' => .ok ((k, v') :: rest')

end

/-- Modelled from the spec: unmarshalSelection (scalars module absent from
src) applies the walker in the Unmarshal direction to a response, guided
by a selection document (a mapping from field alias to Selection Node). -/
def unmarshalSelection (scalars : ScalarMap) (sel : List (String × SelNode))
    (data : JValue) : Except CoerceError JValue :=
  coerceValue .unmarshal scalars (.mk "" "" (some sel)) data

/-- Modelled from the spec: marshalSelection (scalars module absent from
src) applies the walker in the Marshal direction to a payload, guided by a
selection document. -/
def marshalSelection (scalars : ScalarMap) (sel : List (String × SelNode))
    (data : JValue) : Except CoerceError JValue :=
  coerceValue .marshal scalars (.mk "" "" (some sel)) data

-- Step lemmas for the walker (the well-founded definitions do not reduce
-- definitionally, so each branch is exposed as an equation).

theorem coerceValue_vnull (dir : Direction) (sc : ScalarMap) (node : SelNode) :
    coerceValue dir sc node .vnull = .ok .vnull := by
  simp [coerceValue]

theorem coerceValue_vundef (dir : Direction) (sc : ScalarMap) (node : SelNode) :
    coerceValue dir sc node .vundef = .ok .vundef := by
  simp [coerceValue]

theorem coerceValue_vlist (dir : Direction) (sc : ScalarMap) (node : SelNode)
    (xs : List JValue) :
    coerceValue dir sc node (.vlist xs) =
      match coerceList dir sc node xs with
      | .error e => .error e
      | .ok ys => .ok (.vlist ys) := by
  unfold coerceValue
  rfl

theorem coerceValue_leaf (dir : Direction) (sc : ScalarMap) (t kr : String)
    (v : JValue) (h1 : v.isAbsent = false) (h2 : v.isList = false) :
    coerceValue dir sc (.mk t kr none) v = coerceLeaf dir sc t v := by
  cases v <;> simp_all [JValue.isAbsent, JValue.isList] <;>
    (unfold coerceValue; rfl)

theorem coerceValue_fields_obj (dir : Direction) (sc : ScalarMap) (t kr : String)
    (flds : List (String × SelNode)) (kvs : List (String × JValue)) :
    coerceValue dir sc (.mk t kr (some flds)) (.vobj kvs) =
      match coerceFields dir sc flds kvs with
      | .error e => .error e
      | .ok out => .ok (.vobj out) := by
  unfold coerceValue
  rfl

theorem coerceValue_fields_other (dir : Direction) (sc : ScalarMap) (t kr : String)
    (flds : List (String × SelNode)) (v : JValue) (h1 : v.isAbsent = false)
    (h2 : v.isList = false) (h3 : v.isObj = false) :
    coerceValue dir sc (.mk t kr (some flds)) v = .ok v := by
  cases v <;> simp_all [JValue.isAbsent, JValue.isList, JValue.isObj] <;>
    (unfold coerceValue; rfl)

theorem coerceList_nil (dir : Direction) (sc : ScalarMap) (node : SelNode) :
    coerceList dir sc node [] = .ok [] := by
  simp [coerceList]

theorem coerceList_cons (dir : Direction) (sc : ScalarMap) (node : SelNode)
    (x : JValue) (xs : List JValue) :
    coerceList dir sc node (x :: xs) =
      match coerceValue dir sc node x with
      | .error e => .error e
      | .ok y =>
        match coerceList dir sc node xs with
        | .error e => .error e
        | .ok ys => .ok (y :: ys) := by
  conv_lhs => rw [coerceList.eq_def]

theorem coerceFields_nil (dir : Direction) (sc : ScalarMap)
    (flds : List (String × SelNode)) :
    coerceFields dir sc flds [] = .ok [] := by
  simp [coerceFields]

theorem coerceFields_cons (dir : Direction) (sc : ScalarMap)
    (flds : List (String × SelNode)) (k : String) (v : JValue)
    (rest : List (String × JValue)) :
    coerceFields dir sc flds ((k, v) :: rest) =
      match
        (match lookupStr k flds with
         | none => Except.ok v
         | some child => coerceValue dir sc child v) with
      | .error e => .error e
      | .ok v' =>
        match coerceFields dir sc flds rest with
        | .error e => .error e
        | .ok rest' => .ok ((k, v') :: rest') := by
  conv_lhs => rw [coerceFields.eq_def]

theorem lookupStr_mem {α : Type} (k : String) (l : List (String × α)) (x : α)
    (h : lookupStr k l = some x) : (k, x) ∈ l := by
  induction l with
  | nil => simp [lookupStr] at h
  | cons p rest ih =>
    obtain ⟨k', v⟩ := p
    by_cases hk : k' = k
    · subst hk
      simp [lookupStr] at h
      subst h
      exact List.mem_cons_self _ _
    · simp [lookupStr, hk] at h
      exact List.mem_cons_of_mem _ (ih h)

/-- Well-formedness of the registry entries reachable from a selection
node: every leaf type that has a registry entry carries both coercion
functions, the pair is mutually inverse, and the wire image of a present
non-sequence value is again a present non-sequence value. -/
inductive NodeScalarsOk (scalars : ScalarMap) : SelNode → Prop where
  | leaf (t kr : String)
      (h : ∀ d, lookupStr t scalars = some d →
        ∃ mf uf, d.marshal = some mf ∧ d.unmarshal = some uf ∧
          ∀ x, x.isAbsent = false → x.isList = false →
            uf (mf x) = x ∧ (mf x).isAbsent = false ∧ (mf x).isList = false) :
      NodeScalarsOk scalars (.mk t kr none)
  | node (t kr : String) (flds : List (String × SelNode))
      (h : ∀ p ∈ flds, NodeScalarsOk scalars p.2) :
      NodeScalarsOk scalars (.mk t kr (some flds))

theorem coerce_roundtrip_aux (scalars : ScalarMap) :
    ∀ (n : Nat) (node : SelNode) (v w : JValue), sizeOf v ≤ n →
      NodeScalarsOk scalars node →
      coerceValue .marshal scalars node v = .ok w →
      coerceValue .unmarshal scalars node w = .ok v := by
  intro n
  induction n with
  | zero =>
    intro node v w hsz _ _
    exact absurd hsz (by cases v <;> simp)
  | succ n ih =>
    intro node v w hsz hok hm
    obtain ⟨t, kr, fopt⟩ := node
    have hlist : ∀ (l : List JValue), sizeOf l ≤ n →
        ∀ m, coerceList .marshal scalars (.mk t kr fopt) l = .ok m →
          coerceList .unmarshal scalars (.mk t kr fopt) m = .ok l := by
      intro l
      induction l with
      | nil =>
        intro _ m hc
        rw [coerceList_nil] at hc
        simp at hc
        subst hc
        exact coerceList_nil _ _ _
      | cons x xs ihl =>
        intro hszl m hc
        rw [coerceList_cons] at hc
        cases hx : coerceValue .marshal scalars (.mk t kr fopt) x with
        | error e => rw [hx] at hc; simp at hc
        | ok y =>
          rw [hx] at hc
          cases hxs : coerceList .marshal scalars (.mk t kr fopt) xs with
          | error e => rw [hxs] at hc; simp at hc
          | ok ys =>
            rw [hxs] at hc
            simp at hc
            subst hc
            have hx_sz : sizeOf x ≤ n := by simp at hszl; omega
            have hxs_sz : sizeOf xs ≤ n := by simp at hszl; omega
            have hy := ih (.mk t kr fopt) x y hx_sz hok hx
            have hys := ihl hxs_sz ys hxs
            rw [coerceList_cons, hy, hys]
    cases fopt with
    | none =>
      have hleaf : ∀ (v w : JValue), v.isAbsent = false → v.isList = false →
          coerceValue .marshal scalars (.mk t kr none) v = .ok w →
          coerceValue .unmarshal scalars (.mk t kr none) w = .ok v := by
        intro v w ha hl hmv
        rw [coerceValue_leaf _ _ _ _ _ ha hl] at hmv
        unfold coerceLeaf at hmv
        cases hlk : lookupStr t scalars with
        | none =>
          rw [hlk] at hmv
          simp at hmv
          subst hmv
          rw [coerceValue_leaf _ _ _ _ _ ha hl]
          unfold coerceLeaf
          rw [hlk]
        | some d =>
          rw [hlk] at hmv
          simp at hmv
          cases hok with
          | leaf _ _ hinv =>
            obtain ⟨mf, uf, hmar, hunm, hfn⟩ := hinv d hlk
            rw [hmar] at hmv
            simp at hmv
            subst hmv
            obtain ⟨heq, hab, hls⟩ := hfn v ha hl
            rw [coerceValue_leaf _ _ _ _ _ hab hls]
            unfold coerceLeaf
            rw [hlk]
            simp [hunm, heq]
      cases v with
      | vnull =>
        rw [coerceValue_vnull] at hm
        simp at hm
        subst hm
        exact coerceValue_vnull _ _ _
      | vundef =>
        rw [coerceValue_vundef] at hm
        simp at hm
        subst hm
        exact coerceValue_vundef _ _ _
      | vlist xs =>
        rw [coerceValue_vlist] at hm
        cases hxs : coerceList .marshal scalars (.mk t kr none) xs with
        | error e => rw [hxs] at hm; simp at hm
        | ok ys =>
          rw [hxs] at hm
          simp at hm
          subst hm
          have : sizeOf xs ≤ n := by simp at hsz; omega
          rw [coerceValue_vlist, hlist xs this ys hxs]
      | vint n0 => exact hleaf _ _ rfl rfl hm
      | vstr s => exact hleaf _ _ rfl rfl hm
      | vbool b => exact hleaf _ _ rfl rfl hm
      | vdate ms => exact hleaf _ _ rfl rfl hm
      | vobj kvs => exact hleaf _ _ rfl rfl hm
    | some flds =>
      have hmem : ∀ p ∈ flds, NodeScalarsOk scalars p.2 := by
        cases hok with
        | node _ _ _ h => exact h
      have hfields : ∀ (l : List (String × JValue)), sizeOf l ≤ n →
          ∀ m, coerceFields .marshal scalars flds l = .ok m →
            coerceFields .unmarshal scalars flds m = .ok l := by
        intro l
        induction l with
        | nil =>
          intro _ m hc
          rw [coerceFields_nil] at hc
          simp at hc
          subst hc
          exact coerceFields_nil _ _ _
        | cons p rest ihf =>
          obtain ⟨k, v0⟩ := p
          intro hszl m hc
          rw [coerceFields_cons] at hc
          cases hlk : lookupStr k flds with
          | none =>
            rw [hlk] at hc
            simp at hc
            cases hrest : coerceFields .marshal scalars flds rest with
            | error e => rw [hrest] at hc; simp at hc
            | ok rest' =>
              rw [hrest] at hc
              simp at hc
              subst hc
              have hr_sz : sizeOf rest ≤ n := by simp at hszl; omega
              have hr := ihf hr_sz rest' hrest
              rw [coerceFields_cons, hlk]
              simp
              rw [hr]
          | some child =>
            rw [hlk] at hc
            simp at hc
            cases hv : coerceValue .marshal scalars child v0 with
            | error e => rw [hv] at hc; simp at hc
            | ok w0 =>
              rw [hv] at hc
              cases hrest : coerceFields .marshal scalars flds rest with
              | error e => rw [hrest] at hc; simp at hc
              | ok rest' =>
                rw [hrest] at hc
                simp at hc
                subst hc
                have hchild : NodeScalarsOk scalars child :=
                  hmem (k, child) (lookupStr_mem k flds child hlk)
                have hv_sz : sizeOf v0 ≤ n := by simp at hszl; omega
                have hr_sz : sizeOf rest ≤ n := by simp at hszl; omega
                have hw0 := ih child v0 w0 hv_sz hchild hv
                have hr := ihf hr_sz rest' hrest
                rw [coerceFields_cons, hlk]
                simp [hw0, hr]
      cases v with
      | vnull =>
        rw [coerceValue_vnull] at hm
        simp at hm
        subst hm
        exact coerceValue_vnull _ _ _
      | vundef =>
        rw [coerceValue_vundef] at hm
        simp at hm
        subst hm
        exact coerceValue_vundef _ _ _
      | vlist xs =>
        rw [coerceValue_vlist] at hm
        cases hxs : coerceList .marshal scalars (.mk t kr (some flds)) xs with
        | error e => rw [hxs] at hm; simp at hm
        | ok ys =>
          rw [hxs] at hm
          simp at hm
          subst hm
          have : sizeOf xs ≤ n := by simp at hsz; omega
          rw [coerceValue_vlist, hlist xs this ys hxs]
      | vobj kvs =>
        rw [coerceValue_fields_obj] at hm
        cases hf : coerceFields .marshal scalars flds kvs with
        | error e => rw [hf] at hm; simp at hm
        | ok out =>
          rw [hf] at hm
          simp at hm
          subst hm
          have : sizeOf kvs ≤ n := by simp at hsz; omega
          rw [coerceValue_fields_obj, hfields kvs this out hf]
      | vint n0 =>
        rw [coerceValue_fields_other _ _ _ _ _ (.vint n0) rfl rfl rfl] at hm
        simp at hm
        subst hm
        exact coerceValue_fields_other _ _ _ _ _ (.vint n0) rfl rfl rfl
      | vstr s =>
        rw [coerceValue_fields_other _ _ _ _ _ (.vstr s) rfl rfl rfl] at hm
        simp at hm
        subst hm
        exact coerceValue_fields_other _ _ _ _ _ (.vstr s) rfl rfl rfl
      | vbool b =>
        rw [coerceValue_fields_other _ _ _ _ _ (.vbool b) rfl rfl rfl] at hm
        simp at hm
        subst hm
        exact coerceValue_fields_other _ _ _ _ _ (.vbool b) rfl rfl rfl
      | vdate ms =>
        rw [coerceValue_fields_other _ _ _ _ _ (.vdate ms) rfl rfl rfl] at hm
        simp at hm
        subst hm
        exact coerceValue_fields_other _ _ _ _ _ (.vdate ms) rfl rfl rfl

-- Concrete data for the round-trip claim.

/-- Registry with both directions registered but not mutually inverse. -/
def cexScalarsA : ScalarMap :=
  [("X", ⟨"X", some (fun _ => .vint 1), some (fun _ => .vint 0)⟩)]

/-- Registry with both directions registered, inverse on the value used,
whose marshal direction produces the absent wire value null. -/
def cexScalarsB : ScalarMap :=
  [("X", ⟨"X", some (fun _ => .vint 5), some (fun _ => .vnull)⟩)]

def cexSel : List (String × SelNode) := [("a", .mk "X" "a" none)]

/-- C1 counterexample: with every custom scalar type of the selection having
both a marshal and an unmarshal function registered, the round trip can
still fail: first with a registered pair that is not mutually inverse, and
second with a pair whose marshal direction emits null, which the unmarshal
walk then short-circuits. So the claim as stated is false without further
conditions on the registered pair. -/
theorem roundtrip_requires_inverse_cex :
    marshalSelection cexScalarsA cexSel (.vobj [("a", .vint 5)]) =
      .ok (.vobj [("a", .vint 0)]) ∧
    unmarshalSelection cexScalarsA cexSel (.vobj [("a", .vint 0)]) =
      .ok (.vobj [("a", .vint 1)]) ∧
    JValue.vobj [("a", .vint 1)] ≠ JValue.vobj [("a", .vint 5)] ∧
    marshalSelection cexScalarsB cexSel (.vobj [("a", .vint 5)]) =
      .ok (.vobj [("a", .vnull)]) ∧
    unmarshalSelection cexScalarsB cexSel (.vobj [("a", .vnull)]) =
      .ok (.vobj [("a", .vnull)]) ∧
    JValue.vobj [("a", .vnull)] ≠ JValue.vobj [("a", .vint 5)] := by
  refine ⟨?_, ?_, by simp, ?_, ?_, by simp⟩ <;>
    simp [marshalSelection, unmarshalSelection, cexScalarsA, cexScalarsB, cexSel,
      coerceValue, coerceList, coerceFields, coerceLeaf, lookupStr,
      SelNode.fields, SelNode.type]

/-- C1 (amended): for every response R and selection S in which every custom
scalar type with a registry entry has both directions registered, the pair
is mutually inverse, and marshalling a present non-sequence value yields a
present non-sequence value, unmarshalling the marshalled response returns
the original value, including through lists of objects and nested
objects. -/
theorem unmarshal_marshal_roundtrip (scalars : ScalarMap)
    (sel : List (String × SelNode)) (R w : JValue)
    (hok : ∀ p ∈ sel, NodeScalarsOk scalars p.2)
    (hm : marshalSelection scalars sel R = .ok w) :
    unmarshalSelection scalars sel w = .ok R :=
  coerce_roundtrip_aux scalars (sizeOf R) (.mk "" "" (some sel)) R w le_rfl
    (.node _ _ _ hok) hm

/-- Swap between the wire integer and the application date representation;
the identity elsewhere. Mirrors the DateTime pair of the configuration
documentation, made involutive so that both directions are total. -/
def swapDateFn : JValue → JValue
  | .vdate m => .vint m
  | .vint m => .vdate m
  | v => v

def rtScalars : ScalarMap := [("DateTime", ⟨"Date", some swapDateFn, some swapDateFn⟩)]

def rtSel : List (String × SelNode) :=
  [("items", .mk "TodoItem" "allItems" (some
      [("createdAt", .mk "DateTime" "createdAt" none),
       ("creator", .mk "User" "creator" (some
          [("firstName", .mk "String" "firstName" none)]))]))]

def rtResponse : JValue :=
  .vobj [("items", .vlist [.vobj
    [("createdAt", .vdate 7),
     ("creator", .vobj [("firstName", .vstr "John")])]])]

def rtWire : JValue :=
  .vobj [("items", .vlist [.vobj
    [("createdAt", .vint 7),
     ("creator", .vobj [("firstName", .vstr "John")])]])]

theorem rtScalars_leaf_ok (t kr : String) :
    NodeScalarsOk rtScalars (.mk t kr none) := by
  refine .leaf t kr ?_
  intro d hd
  simp only [rtScalars, lookupStr] at hd
  split at hd
  · simp only [Option.some.injEq] at hd
    subst hd
    refine ⟨swapDateFn, swapDateFn, rfl, rfl, ?_⟩
    intro x h1 h2
    cases x <;> simp_all [swapDateFn, JValue.isAbsent, JValue.isList]
  · simp at hd

theorem rtSel_ok : ∀ p ∈ rtSel, NodeScalarsOk rtScalars p.2 := by
  intro p hp
  simp only [rtSel, List.mem_singleton] at hp
  subst hp
  refine .node _ _ _ ?_
  intro q hq
  simp only [List.mem_cons, List.mem_singleton] at hq
  rcases hq with hq | hq | hq
  · subst hq
    exact rtScalars_leaf_ok "DateTime" "createdAt"
  · subst hq
    refine .node _ _ _ ?_
    intro r hr
    simp only [List.mem_singleton] at hr
    subst hr
    exact rtScalars_leaf_ok "String" "firstName"
  · cases hq

/-- C1 witness: the round-trip theorem applied to a concrete selection with
a list of objects, a nested object and a DateTime leaf. -/
theorem unmarshal_marshal_roundtrip_witness :
    marshalSelection rtScalars rtSel rtResponse = .ok rtWire ∧
    unmarshalSelection rtScalars rtSel rtWire = .ok rtResponse := by
  have hmar : marshalSelection rtScalars rtSel rtResponse = .ok rtWire := by
    simp [marshalSelection, rtScalars, rtSel, rtResponse, rtWire, coerceValue,
      coerceList, coerceFields, coerceLeaf, lookupStr, swapDateFn,
      SelNode.fields, SelNode.type]
  exact ⟨hmar, unmarshal_marshal_roundtrip rtScalars rtSel rtResponse rtWire rtSel_ok hmar⟩

/-- C2: for every selection node and both directions, a null or undefined
value is returned unchanged, and no scalar conversion function is invoked on
it: the result is the same for every registry, including one lacking the
required function; the same holds for null or undefined values nested
inside an object walked under a node with fields. -/
theorem coerce_absent_short_circuit (dir : Direction) (scalars : ScalarMap)
    (node : SelNode) (t kr : String) (flds : List (String × SelNode))
    (kvs : List (String × JValue))
    (habs : ∀ p ∈ kvs, JValue.isAbsent p.2 = true) :
    coerceValue dir scalars node .vnull = .ok .vnull ∧
    coerceValue dir scalars node .vundef = .ok .vundef ∧
    coerceValue dir scalars (.mk t kr (some flds)) (.vobj kvs) = .ok (.vobj kvs) := by
  have habsfields : ∀ (l : List (String × JValue)),
      (∀ p ∈ l, JValue.isAbsent p.2 = true) →
      coerceFields dir scalars flds l = .ok l := by
    intro l hl
    induction l with
    | nil => exact coerceFields_nil _ _ _
    | cons p rest ih =>
      obtain ⟨k, v0⟩ := p
      have hv0 : JValue.isAbsent v0 = true := hl (k, v0) (List.mem_cons_self _ _)
      have hrest := ih (fun q hq => hl q (List.mem_cons_of_mem _ hq))
      have hcv : (match lookupStr k flds with
          | none => Except.ok v0
          | some child => coerceValue dir scalars child v0) = .ok v0 := by
        cases hlk : lookupStr k flds with
        | none => rfl
        | some child =>
          cases v0 with
          | vnull => exact coerceValue_vnull _ _ _
          | vundef => exact coerceValue_vundef _ _ _
          | vint n0 => simp [JValue.isAbsent] at hv0
          | vstr s => simp [JValue.isAbsent] at hv0
          | vbool b => simp [JValue.isAbsent] at hv0
          | vdate ms => simp [JValue.isAbsent] at hv0
          | vlist xs => simp [JValue.isAbsent] at hv0
          | vobj fs => simp [JValue.isAbsent] at hv0
      rw [coerceFields_cons, hcv, hrest]
  exact ⟨coerceValue_vnull _ _ _, coerceValue_vundef _ _ _, by
    rw [coerceValue_fields_obj, habsfields kvs habs]⟩

/-- C2 witness: null and undefined pass through a DateTime selection
unchanged, at the top level and nested inside an object. -/
theorem coerce_absent_short_circuit_witness :
    coerceValue .unmarshal rtScalars
      (.mk "TodoItem" "item" (some [("createdAt", .mk "DateTime" "createdAt" none)]))
      .vnull = .ok .vnull ∧
    coerceValue .unmarshal rtScalars
      (.mk "TodoItem" "item" (some [("createdAt", .mk "DateTime" "createdAt" none)]))
      .vundef = .ok .vundef ∧
    coerceValue .unmarshal rtScalars
      (.mk "TodoItem" "item" (some [("createdAt", .mk "DateTime" "createdAt" none)]))
      (.vobj [("createdAt", .vnull)]) = .ok (.vobj [("createdAt", .vnull)]) :=
  coerce_absent_short_circuit .unmarshal rtScalars
    (.mk "TodoItem" "item" (some [("createdAt", .mk "DateTime" "createdAt" none)]))
    "TodoItem" "item" [("createdAt", .mk "DateTime" "createdAt" none)]
    [("createdAt", .vnull)] (by simp [JValue.isAbsent])

/-- C3: a present non-sequence value at a leaf whose registry entry lacks
the function for the current direction makes the walk fail with an error
naming the scalar type, in either direction; the value is not silently
passed through. -/
theorem scalar_function_missing_error (scalars : ScalarMap) (t kr : String)
    (d : ScalarDescriptor) (v : JValue) (hlk : lookupStr t scalars = some d)
    (ha : v.isAbsent = false) (hl : v.isList = false) :
    (d.unmarshal = none →
      coerceValue .unmarshal scalars (.mk t kr none) v =
        .error (.scalarFunctionMissing .unmarshal t)) ∧
    (d.marshal = none →
      coerceValue .marshal scalars (.mk t kr none) v =
        .error (.scalarFunctionMissing .marshal t)) ∧
    (CoerceError.scalarFunctionMissing .unmarshal t).typeName = t ∧
    (CoerceError.scalarFunctionMissing .marshal t).typeName = t := by
  refine ⟨?_, ?_, rfl, rfl⟩
  · intro hu
    rw [coerceValue_leaf _ _ _ _ _ ha hl]
    unfold coerceLeaf
    rw [hlk]
    simp [hu]
  · intro hma
    rw [coerceValue_leaf _ _ _ _ _ ha hl]
    unfold coerceLeaf
    rw [hlk]
    simp [hma]

/-- Registry whose DateTime entry lacks the unmarshal function. -/
def missingUnmScalars : ScalarMap := [("DateTime", ⟨"Date", none, some swapDateFn⟩)]

/-- Registry whose DateTime entry lacks the marshal function. -/
def missingMarScalars : ScalarMap := [("DateTime", ⟨"Date", some swapDateFn, none⟩)]

/-- C3 witness: both failure directions at concrete registries. -/
theorem scalar_function_missing_error_witness :
    coerceValue .unmarshal missingUnmScalars (.mk "DateTime" "createdAt" none) (.vint 3) =
      .error (.scalarFunctionMissing .unmarshal "DateTime") ∧
    coerceValue .marshal missingMarScalars (.mk "DateTime" "createdAt" none) (.vdate 3) =
      .error (.scalarFunctionMissing .marshal "DateTime") := by
  constructor
  · exact (scalar_function_missing_error missingUnmScalars "DateTime" "createdAt"
      ⟨"Date", none, some swapDateFn⟩ (.vint 3)
      (by simp [lookupStr, missingUnmScalars]) rfl rfl).1 rfl
  · exact (scalar_function_missing_error missingMarScalars "DateTime" "createdAt"
      ⟨"Date", some swapDateFn, none⟩ (.vdate 3)
      (by simp [lookupStr, missingMarScalars]) rfl rfl).2.1 rfl

/-- C6: enum-typed leaves — leaves whose declared type has no registry
entry — are returned unchanged in both directions, both for a single string
and for a list of strings; no scalar conversion function exists to be
invoked on them. -/
theorem enum_leaf_passthrough (dir : Direction) (scalars : ScalarMap)
    (t kr s : String) (ss : List String) (hlk : lookupStr t scalars = none) :
    coerceValue dir scalars (.mk t kr none) (.vstr s) = .ok (.vstr s) ∧
    coerceValue dir scalars (.mk t kr none) (.vlist (ss.map .vstr)) =
      .ok (.vlist (ss.map .vstr)) := by
  have hstr : ∀ s' : String,
      coerceValue dir scalars (.mk t kr none) (.vstr s') = .ok (.vstr s') := by
    intro s'
    rw [coerceValue_leaf dir scalars t kr (.vstr s') rfl rfl]
    unfold coerceLeaf
    rw [hlk]
  refine ⟨hstr s, ?_⟩
  have hl : coerceList dir scalars (.mk t kr none) (ss.map .vstr) =
      .ok (ss.map .vstr) := by
    induction ss with
    | nil => simpa using coerceList_nil _ _ _
    | cons a as ih => rw [List.map_cons, coerceList_cons, hstr a, ih]
  rw [coerceValue_vlist, hl]

/-- C6 witness: an enum value and a list of enum values pass through the
DateTime registry unchanged in the marshal direction. -/
theorem enum_leaf_passthrough_witness :
    coerceValue .marshal rtScalars (.mk "EnumValue" "enumValue" none)
      (.vstr "Hello") = .ok (.vstr "Hello") ∧
    coerceValue .marshal rtScalars (.mk "EnumValue" "enumValue" none)
      (.vlist ([("Hello" : String), "World"].map .vstr)) =
      .ok (.vlist ([("Hello" : String), "World"].map .vstr)) :=
  enum_leaf_passthrough .marshal rtScalars "EnumValue" "enumValue" "Hello"
    ["Hello", "World"] (by simp [lookupStr, rtScalars])

-- Concrete DateTime registry matching the configuration documentation.

/-- Modelled from the spec: the unmarshal function of the documented
DateTime configuration, building a Date from wire epoch milliseconds. -/
def dtUnmarshalFn : JValue → JValue
  | .vint m => .vdate m
  | v => v

/-- Modelled from the spec: the marshal function of the documented DateTime
configuration, reading epoch milliseconds back out of a Date. -/
def dtMarshalFn : JValue → JValue
  | .vdate m => .vint m
  | v => v

def dtScalars : ScalarMap := [("DateTime", ⟨"Date", some dtUnmarshalFn, some dtMarshalFn⟩)]

def dtSel : List (String × SelNode) :=
  [("item", .mk "TodoItem" "item" (some [("createdAt", .mk "DateTime" "createdAt" none)]))]

/-- C8: with the DateTime scalar registered as documented, the falsy wire
value 0 is still coerced: it unmarshals to the epoch instant, and
marshalling that value back yields exactly 0. -/
theorem datetime_epoch_roundtrip :
    unmarshalSelection dtScalars dtSel (.vobj [("item", .vobj [("createdAt", .vint 0)])]) =
      .ok (.vobj [("item", .vobj [("createdAt", .vdate 0)])]) ∧
    marshalSelection dtScalars dtSel (.vobj [("item", .vobj [("createdAt", .vdate 0)])]) =
      .ok (.vobj [("item", .vobj [("createdAt", .vint 0)])]) := by
  constructor <;>
    simp [unmarshalSelection, marshalSelection, dtScalars, dtSel, dtUnmarshalFn,
      dtMarshalFn, coerceValue, coerceFields, coerceLeaf, lookupStr,
      SelNode.fields, SelNode.type]

/-- C9: at a leaf whose declared type is a custom scalar, a list value is
coerced by applying the conversion function of the current direction to
each element individually, in both directions; an empty list is returned as
an empty list under every registry and node, so no conversion function is
invoked for it. -/
theorem leaf_list_elementwise (scalars : ScalarMap) (t kr : String)
    (d : ScalarDescriptor) (xs : List JValue)
    (hlk : lookupStr t scalars = some d)
    (hxs : ∀ x ∈ xs, x.isAbsent = false ∧ x.isList = false) :
    (∀ mf, d.marshal = some mf →
      coerceValue .marshal scalars (.mk t kr none) (.vlist xs) =
        .ok (.vlist (xs.map mf))) ∧
    (∀ uf, d.unmarshal = some uf →
      coerceValue .unmarshal scalars (.mk t kr none) (.vlist xs) =
        .ok (.vlist (xs.map uf))) ∧
    (∀ (dir : Direction) (sc : ScalarMap) (node : SelNode),
      coerceValue dir sc node (.vlist []) = .ok (.vlist [])) := by
  have hmap : ∀ (dir : Direction) (f : JValue → JValue),
      (∀ x, x.isAbsent = false → x.isList = false →
        coerceValue dir scalars (.mk t kr none) x = .ok (f x)) →
      ∀ (l : List JValue), (∀ x ∈ l, x.isAbsent = false ∧ x.isList = false) →
        coerceList dir scalars (.mk t kr none) l = .ok (l.map f) := by
    intro dir f hf l hl
    induction l with
    | nil => simpa using coerceList_nil _ _ _
    | cons a as ih =>
      obtain ⟨ha1, ha2⟩ := hl a (List.mem_cons_self _ _)
      rw [List.map_cons, coerceList_cons, hf a ha1 ha2,
        ih (fun x hx => hl x (List.mem_cons_of_mem _ hx))]
  refine ⟨?_, ?_, ?_⟩
  · intro mf hmf
    have hf : ∀ x, x.isAbsent = false → x.isList = false →
        coerceValue .marshal scalars (.mk t kr none) x = .ok (mf x) := by
      intro x hx1 hx2
      rw [coerceValue_leaf _ _ _ _ _ hx1 hx2]
      unfold coerceLeaf
      rw [hlk]
      simp [hmf]
    rw [coerceValue_vlist, hmap .marshal mf hf xs hxs]
  · intro uf huf
    have hf : ∀ x, x.isAbsent = false → x.isList = false →
        coerceValue .unmarshal scalars (.mk t kr none) x = .ok (uf x) := by
      intro x hx1 hx2
      rw [coerceValue_leaf _ _ _ _ _ hx1 hx2]
      unfold coerceLeaf
      rw [hlk]
      simp [huf]
    rw [coerceValue_vlist, hmap .unmarshal uf hf xs hxs]
  · intro dir sc node
    rw [coerceValue_vlist, coerceList_nil]

/-- C9 witness: a list of wire integers under a DateTime leaf unmarshals
elementwise to dates. -/
theorem leaf_list_elementwise_witness :
    coerceValue .unmarshal dtScalars (.mk "DateTime" "dates" none)
      (.vlist [.vint 1, .vint 2]) = .ok (.vlist [.vdate 1, .vdate 2]) := by
  have h := (leaf_list_elementwise dtScalars "DateTime" "dates"
    ⟨"Date", some dtUnmarshalFn, some dtMarshalFn⟩ [.vint 1, .vint 2]
    (by simp [lookupStr, dtScalars])
    (by simp [JValue.isAbsent, JValue.isList])).2.1 dtUnmarshalFn rfl
  simpa [dtUnmarshalFn] using h

/-- Input shape declared by a query artifact: the root field-to-type map
and the table of named object types, each mapping field names to declared
type names. -/
structure InputSpec where
  fields : List (String × String)
  types : List (String × List (String × String))

mutual

/-- Modelled from the spec: the Marshal-direction leaf step of the input
walk (the computeInput path of the network module absent from src) at a
value of a custom scalar type: absent values pass through, sequences are
mapped elementwise, and otherwise the marshal function is applied; a
registry entry lacking the marshal function is an error naming the type. -/
def marshalInputLeaf (t : String) (om : Option (JValue → JValue)) :
    JValue → Except CoerceError JValue
  | .vnull => .ok .vnull
  | .vundef => .ok .vundef
  | .vlist xs =>
    match marshalInputLeafList t om xs with
    | .error e => .error e
    | .ok ys => .ok (.vlist ys)
  | v =>
    match om with
    | some f => .ok (f v)
    | none => .error (.scalarFunctionMissing .marshal t)

/-- Elementwise leaf marshalling over a sequence. -/
def marshalInputLeafList (t : String) (om : Option (JValue → JValue)) :
    List JValue → Except CoerceError (List JValue)
  | [] => .ok []
  | x :: xs =>
    match marshalInputLeaf t om x with
    | .error e => .error e
    | .ok y =>
      match marshalInputLeafList t om xs with
      | .error e => .error e
      | .ok ys => .ok (y :: ys)

end

mutual

/-- Modelled from the spec: the input half of the Type Coercion Walker in
the Marshal direction (spec section 4.6; the network module implementing
computeInput is absent from src, its behaviour pinned down by the test
file). A value is walked against a field-to-type map: absent values pass
through, sequences map elementwise with the same map, keyed structures
recurse per entry, and bare scalars at an object position pass through. -/
def marshalInputValue (scalars : ScalarMap)
    (types : List (String × List (String × String)))
    (fieldTypes : List (String × String)) : JValue → Except CoerceError JValue
  | .vnull => .ok .vnull
  | .vundef => .ok .vundef
  | .vlist xs =>
    match marshalInputList scalars types fieldTypes xs with
    | .error e => .error e
    | .ok ys => .ok (.vlist ys)
  | .vobj kvs =>
    match marshalInputFields scalars types fieldTypes kvs with
    | .error e => .error e
    | .ok out => .ok (.vobj out)
  | v => .ok v

/-- Elementwise input marshalling over a sequence. -/
def marshalInputList (scalars : ScalarMap)
    (types : List (String × List (String × String)))
    (fieldTypes : List (String × String)) :
    List JValue → Except CoerceError (List JValue)
  | [] => .ok []
  | x :: xs =>
    match marshalInputValue scalars types fieldTypes x with
    | .error e => .error e
    | .ok y =>
      match marshalInputList scalars types fieldTypes xs with
      | .error e => .error e
      | .ok ys => .ok (y :: ys)

/-- Entry-by-entry input marshalling over a keyed structure. -/
def marshalInputFields (scalars : ScalarMap)
    (types : List (String × List (String × String)))
    (fieldTypes : List (String × String)) :
    List (String × JValue) → Except CoerceError (List (String × JValue))
  | [] => .ok []
  | (k, v) :: rest =>
    match marshalInputField scalars types fieldTypes k v with
    | .error e => .error e
    | .ok v' =>
      match marshalInputFields scalars types fieldTypes rest with
      | .error e => .error e
      | .ok rest' => .ok ((k, v') :: rest')

/-- Per-entry dispatch of the input walk: an entry whose key has no
declared type passes through unchanged; a declared custom scalar type is
marshalled as a leaf; a declared object type recurses with the field map of
that type; any other declared type (enums and built-in scalars) passes
through unchanged. -/
def marshalInputField (scalars : ScalarMap)
    (types : List (String × List (String × String)))
    (fieldTypes : List (String × String)) (k : String) (v : JValue) :
    Except CoerceError JValue :=
  match lookupStr k fieldTypes with
  | none => .ok v
  | some t =>
    match lookupStr t scalars with
    | some d => marshalInputLeaf t d.marshal v
    | none =>
      match lookupStr t types with
      | some fts => marshalInputValue scalars types fts v
      | none => .ok v

end

/-- Modelled from the spec: computeInput of the Request Context (network
module absent from src) first runs the declared variable-producing
function, then applies the input walk in the Marshal direction against the
declared input shape of the artifact. -/
def computeInput (scalars : ScalarMap) (ispec : InputSpec)
    (variableFunction : Unit → JValue) : Except CoerceError JValue :=
  marshalInputValue scalars ispec.types ispec.fields (variableFunction ())

-- Step lemmas for the input walker.

theorem marshalInputValue_vnull (sc : ScalarMap) (ts : List (String × List (String × String)))
    (fts : List (String × String)) :
    marshalInputValue sc ts fts .vnull = .ok .vnull := by
  simp [marshalInputValue]

theorem marshalInputValue_vundef (sc : ScalarMap) (ts : List (String × List (String × String)))
    (fts : List (String × String)) :
    marshalInputValue sc ts fts .vundef = .ok .vundef := by
  simp [marshalInputValue]

theorem marshalInputValue_vlist (sc : ScalarMap) (ts : List (String × List (String × String)))
    (fts : List (String × String)) (xs : List JValue) :
    marshalInputValue sc ts fts (.vlist xs) =
      match marshalInputList sc ts fts xs with
      | .error e => .error e
      | .ok ys => .ok (.vlist ys) := by
  conv_lhs => rw [marshalInputValue.eq_def]

theorem marshalInputValue_vobj (sc : ScalarMap) (ts : List (String × List (String × String)))
    (fts : List (String × String)) (kvs : List (String × JValue)) :
    marshalInputValue sc ts fts (.vobj kvs) =
      match marshalInputFields sc ts fts kvs with
      | .error e => .error e
      | .ok out => .ok (.vobj out) := by
  conv_lhs => rw [marshalInputValue.eq_def]

theorem marshalInputValue_other (sc : ScalarMap) (ts : List (String × List (String × String)))
    (fts : List (String × String)) (v : JValue) (h1 : v.isAbsent = false)
    (h2 : v.isList = false) (h3 : v.isObj = false) :
    marshalInputValue sc ts fts v = .ok v := by
  cases v <;> simp_all [JValue.isAbsent, JValue.isList, JValue.isObj] <;>
    simp [marshalInputValue]

theorem marshalInputList_nil (sc : ScalarMap) (ts : List (String × List (String × String)))
    (fts : List (String × String)) :
    marshalInputList sc ts fts [] = .ok [] := by
  simp [marshalInputList]

theorem marshalInputList_cons (sc : ScalarMap) (ts : List (String × List (String × String)))
    (fts : List (String × String)) (x : JValue) (xs : List JValue) :
    marshalInputList sc ts fts (x :: xs) =
      match marshalInputValue sc ts fts x with
      | .error e => .error e
      | .ok y =>
        match marshalInputList sc ts fts xs with
        | .error e => .error e
        | .ok ys => .ok (y :: ys) := by
  conv_lhs => rw [marshalInputList.eq_def]

theorem marshalInputFields_nil (sc : ScalarMap) (ts : List (String × List (String × String)))
    (fts : List (String × String)) :
    marshalInputFields sc ts fts [] = .ok [] := by
  simp [marshalInputFields]

theorem marshalInputFields_cons (sc : ScalarMap) (ts : List (String × List (String × String)))
    (fts : List (String × String)) (k : String) (v : JValue)
    (rest : List (String × JValue)) :
    marshalInputFields sc ts fts ((k, v) :: rest) =
      match marshalInputField sc ts fts k v with
      | .error e => .error e
      | .ok v' =>
        match marshalInputFields sc ts fts rest with
        | .error e => .error e
        | .ok rest' => .ok ((k, v') :: rest') := by
  conv_lhs => rw [marshalInputFields.eq_def]

theorem marshalInputField_eq (sc : ScalarMap) (ts : List (String × List (String × String)))
    (fts : List (String × String)) (k : String) (v : JValue) :
    marshalInputField sc ts fts k v =
      match lookupStr k fts with
      | none => .ok v
      | some t =>
        match lookupStr t sc with
        | some d => marshalInputLeaf t d.marshal v
        | none =>
          match lookupStr t ts with
          | some fts' => marshalInputValue sc ts fts' v
          | none => .ok v := by
  conv_lhs => rw [marshalInputField.eq_def]

theorem marshalInputLeaf_vnull (t : String) (om : Option (JValue → JValue)) :
    marshalInputLeaf t om .vnull = .ok .vnull := by
  simp [marshalInputLeaf]

theorem marshalInputLeaf_vundef (t : String) (om : Option (JValue → JValue)) :
    marshalInputLeaf t om .vundef = .ok .vundef := by
  simp [marshalInputLeaf]

theorem marshalInputLeaf_vlist (t : String) (om : Option (JValue → JValue))
    (xs : List JValue) :
    marshalInputLeaf t om (.vlist xs) =
      match marshalInputLeafList t om xs with
      | .error e => .error e
      | .ok ys => .ok (.vlist ys) := by
  conv_lhs => rw [marshalInputLeaf.eq_def]

theorem marshalInputLeaf_other (t : String) (om : Option (JValue → JValue))
    (v : JValue) (h1 : v.isAbsent = false) (h2 : v.isList = false) :
    marshalInputLeaf t om v =
      match om with
      | some f => .ok (f v)
      | none => .error (.scalarFunctionMissing .marshal t) := by
  cases v <;> simp_all [JValue.isAbsent, JValue.isList] <;>
    (conv_lhs => rw [marshalInputLeaf.eq_def])

theorem marshalInputLeafList_nil (t : String) (om : Option (JValue → JValue)) :
    marshalInputLeafList t om [] = .ok [] := by
  simp [marshalInputLeafList]

theorem marshalInputLeafList_cons (t : String) (om : Option (JValue → JValue))
    (x : JValue) (xs : List JValue) :
    marshalInputLeafList t om (x :: xs) =
      match marshalInputLeaf t om x with
      | .error e => .error e
      | .ok y =>
        match marshalInputLeafList t om xs with
        | .error e => .error e
        | .ok ys => .ok (y :: ys) := by
  conv_lhs => rw [marshalInputLeafList.eq_def]

theorem marshalInput_id_of_no_scalars :
    ∀ (N : Nat) (ts : List (String × List (String × String)))
      (fts : List (String × String)) (v : JValue), sizeOf v ≤ N →
      marshalInputValue [] ts fts v = .ok v := by
  intro N
  induction N with
  | zero =>
    intro ts fts v hsz
    exact absurd hsz (by cases v <;> simp)
  | succ N ih =>
    intro ts fts v hsz
    cases v with
    | vnull => exact marshalInputValue_vnull _ _ _
    | vundef => exact marshalInputValue_vundef _ _ _
    | vint n0 => exact marshalInputValue_other _ _ _ _ rfl rfl rfl
    | vstr s => exact marshalInputValue_other _ _ _ _ rfl rfl rfl
    | vbool b => exact marshalInputValue_other _ _ _ _ rfl rfl rfl
    | vdate ms => exact marshalInputValue_other _ _ _ _ rfl rfl rfl
    | vlist xs =>
      have hxs : sizeOf xs ≤ N := by simp at hsz; omega
      have hl : ∀ (l : List JValue), sizeOf l ≤ N →
          marshalInputList [] ts fts l = .ok l := by
        intro l
        induction l with
        | nil => intro _; exact marshalInputList_nil _ _ _
        | cons a as ihl =>
          intro hla
          have ha : sizeOf a ≤ N := by simp at hla; omega
          have has : sizeOf as ≤ N := by simp at hla; omega
          rw [marshalInputList_cons, ih ts fts a ha, ihl has]
      rw [marshalInputValue_vlist, hl xs hxs]
    | vobj kvs =>
      have hkvs : sizeOf kvs ≤ N := by simp at hsz; omega
      have hf : ∀ (l : List (String × JValue)), sizeOf l ≤ N →
          marshalInputFields [] ts fts l = .ok l := by
        intro l
        induction l with
        | nil => intro _; exact marshalInputFields_nil _ _ _
        | cons p rest ihl =>
          obtain ⟨k, v0⟩ := p
          intro hla
          have hv0 : sizeOf v0 ≤ N := by simp at hla; omega
          have hrest : sizeOf rest ≤ N := by simp at hla; omega
          have hfield : marshalInputField [] ts fts k v0 = .ok v0 := by
            rw [marshalInputField_eq]
            cases lookupStr k fts with
            | none => rfl
            | some t =>
              show (match lookupStr t ([] : ScalarMap) with
                | some d => marshalInputLeaf t d.marshal v0
                | none =>
                  match lookupStr t ts with
                  | some fts' => marshalInputValue [] ts fts' v0
                  | none => .ok v0) = .ok v0
              cases lookupStr t ts with
              | none => rfl
              | some fts' => exact ih ts fts' v0 hv0
          rw [marshalInputFields_cons, hfield, ihl hrest]
      rw [marshalInputValue_vobj, hf kvs hkvs]

-- Concrete recursive input shape for the arbitrary-depth statement,
-- mirroring the NestedDate input type of the test artifact.

def nestTypes : List (String × List (String × String)) :=
  [("NestedDate", [("date", "DateTime"), ("nested", "NestedDate")])]

def ntFields : List (String × String) := [("date", "DateTime"), ("nested", "NestedDate")]

def nestFields : List (String × String) := [("date", "NestedDate")]

/-- Application-side input nested n levels deep, carrying a date at the
bottom. -/
def nestedInput : Nat → Int → JValue
  | 0, m => .vobj [("date", .vdate m)]
  | n + 1, m => .vobj [("nested", nestedInput n m)]

/-- Wire form of the same input: the date is replaced by its epoch
milliseconds at the bottom. -/
def nestedWire : Nat → Int → JValue
  | 0, m => .vobj [("date", .vint m)]
  | n + 1, m => .vobj [("nested", nestedWire n m)]

theorem nested_marshal (n : Nat) (m : Int) :
    marshalInputValue dtScalars nestTypes ntFields (nestedInput n m) =
      .ok (nestedWire n m) := by
  have hdt : lookupStr "date" ntFields = some "DateTime" := by
    simp [lookupStr, ntFields]
  have hsc : lookupStr "DateTime" dtScalars =
      some ⟨"Date", some dtUnmarshalFn, some dtMarshalFn⟩ := by
    simp [lookupStr, dtScalars]
  have hn : lookupStr "nested" ntFields = some "NestedDate" := by
    simp [lookupStr, ntFields]
  have hnsc : lookupStr "NestedDate" dtScalars = none := by
    simp [lookupStr, dtScalars]
  have hnty : lookupStr "NestedDate" nestTypes = some ntFields := by
    simp [lookupStr, nestTypes, ntFields]
  induction n with
  | zero =>
    rw [nestedInput, nestedWire, marshalInputValue_vobj, marshalInputFields_cons,
      marshalInputField_eq]
    simp only [hdt, hsc]
    rw [marshalInputLeaf_other "DateTime" (some dtMarshalFn) (.vdate m) rfl rfl]
    simp [dtMarshalFn, marshalInputFields_nil]
  | succ n ih =>
    rw [nestedInput, nestedWire, marshalInputValue_vobj, marshalInputFields_cons,
      marshalInputField_eq]
    simp only [hn, hnsc, hnty, ih, marshalInputFields_nil]

/-- C4: computeInput first runs the declared variable-producing function
and then applies the coercion walker in the Marshal direction against the
declared input shape; with no custom scalars registered the walk returns
every value unchanged at any depth (non-custom-scalar values are never
altered), and with the DateTime scalar registered a date nested under
arbitrarily many levels of declared object types is emitted in wire
representation. -/
theorem computeInput_marshals_input :
    (∀ (scalars : ScalarMap) (ispec : InputSpec) (f : Unit → JValue),
      computeInput scalars ispec f =
        marshalInputValue scalars ispec.types ispec.fields (f ())) ∧
    (∀ (ts : List (String × List (String × String)))
      (fts : List (String × String)) (v : JValue),
      marshalInputValue [] ts fts v = .ok v) ∧
    (∀ (n : Nat) (m : Int),
      computeInput dtScalars ⟨nestFields, nestTypes⟩
        (fun _ => .vobj [("date", nestedInput n m)]) =
        .ok (.vobj [("date", nestedWire n m)])) := by
  refine ⟨fun _ _ _ => rfl, ?_, ?_⟩
  · intro ts fts v
    exact marshalInput_id_of_no_scalars (sizeOf v) ts fts v le_rfl
  · intro n m
    have h1 : lookupStr "date" nestFields = some "NestedDate" := by
      simp [lookupStr, nestFields]
    have h2 : lookupStr "NestedDate" dtScalars = none := by
      simp [lookupStr, dtScalars]
    have h3 : lookupStr "NestedDate" nestTypes = some ntFields := by
      simp [lookupStr, nestTypes, ntFields]
    show marshalInputValue dtScalars nestTypes nestFields (.vobj [("date", nestedInput n m)]) =
      .ok (.vobj [("date", nestedWire n m)])
    rw [marshalInputValue_vobj, marshalInputFields_cons, marshalInputField_eq]
    simp only [h1, h2, h3, nested_marshal n m, marshalInputFields_nil]

/-- C7: walking a keyed value under a selection node with fields preserves
the keys in order and passes through every entry whose key does not appear
in the declared fields, with its value unchanged, in both directions; the
elements of a list under such a node are each walked with the same node, so
the same holds for objects nested inside lists; and the input walk likewise
passes through object entries whose key has no declared type. -/
theorem unknown_keys_passthrough :
    ∀ (dir : Direction) (scalars : ScalarMap) (t kr : String)
      (flds : List (String × SelNode)),
      (∀ (kvs out : List (String × JValue)),
        coerceValue dir scalars (.mk t kr (some flds)) (.vobj kvs) = .ok (.vobj out) →
        List.Forall₂ (fun p q => p.1 = q.1 ∧ (lookupStr p.1 flds = none → q = p)) kvs out) ∧
      (∀ (vs ws : List JValue),
        coerceValue dir scalars (.mk t kr (some flds)) (.vlist vs) = .ok (.vlist ws) →
        List.Forall₂ (fun v w =>
          coerceValue dir scalars (.mk t kr (some flds)) v = .ok w) vs ws) ∧
      (∀ (ts : List (String × List (String × String))) (fts : List (String × String))
        (kvs out : List (String × JValue)),
        marshalInputValue scalars ts fts (.vobj kvs) = .ok (.vobj out) →
        List.Forall₂ (fun p q => p.1 = q.1 ∧ (lookupStr p.1 fts = none → q = p)) kvs out) := by
  intro dir scalars t kr flds
  have hobj : ∀ (kvs out : List (String × JValue)),
      coerceFields dir scalars flds kvs = .ok out →
      List.Forall₂ (fun p q => p.1 = q.1 ∧ (lookupStr p.1 flds = none → q = p)) kvs out := by
    intro kvs
    induction kvs with
    | nil =>
      intro out h
      rw [coerceFields_nil] at h
      simp at h
      subst h
      exact List.Forall₂.nil
    | cons p rest ih =>
      obtain ⟨k, v0⟩ := p
      intro out h
      rw [coerceFields_cons] at h
      cases hlk : lookupStr k flds with
      | none =>
        rw [hlk] at h
        simp at h
        cases hrest : coerceFields dir scalars flds rest with
        | error e => rw [hrest] at h; simp at h
        | ok rest' =>
          rw [hrest] at h
          simp at h
          subst h
          exact List.Forall₂.cons ⟨rfl, fun _ => rfl⟩ (ih rest' hrest)
      | some child =>
        rw [hlk] at h
        simp at h
        cases hv : coerceValue dir scalars child v0 with
        | error e => rw [hv] at h; simp at h
        | ok w0 =>
          rw [hv] at h
          cases hrest : coerceFields dir scalars flds rest with
          | error e => rw [hrest] at h; simp at h
          | ok rest' =>
            rw [hrest] at h
            simp at h
            subst h
            refine List.Forall₂.cons ⟨rfl, ?_⟩ (ih rest' hrest)
            intro hnone
            rw [hlk] at hnone
            exact Option.noConfusion hnone
  refine ⟨?_, ?_, ?_⟩
  · intro kvs out h
    rw [coerceValue_fields_obj] at h
    cases hf : coerceFields dir scalars flds kvs with
    | error e => rw [hf] at h; simp at h
    | ok out' =>
      rw [hf] at h
      simp at h
      subst h
      exact hobj kvs out' hf
  · intro vs
    induction vs with
    | nil =>
      intro ws h
      rw [coerceValue_vlist, coerceList_nil] at h
      simp at h
      subst h
      exact List.Forall₂.nil
    | cons a as ih =>
      intro ws h
      rw [coerceValue_vlist, coerceList_cons] at h
      cases ha : coerceValue dir scalars (.mk t kr (some flds)) a with
      | error e => rw [ha] at h; simp at h
      | ok b =>
        rw [ha] at h
        cases has : coerceList dir scalars (.mk t kr (some flds)) as with
        | error e => rw [has] at h; simp at h
        | ok bs =>
          rw [has] at h
          simp at h
          subst h
          refine List.Forall₂.cons ha (ih bs ?_)
          rw [coerceValue_vlist, has]
  · intro ts fts kvs
    have hfield_unknown : ∀ (k : String) (v : JValue), lookupStr k fts = none →
        marshalInputField scalars ts fts k v = .ok v := by
      intro k v hk
      rw [marshalInputField_eq, hk]
    have hinp : ∀ (l out : List (String × JValue)),
        marshalInputFields scalars ts fts l = .ok out →
        List.Forall₂ (fun p q => p.1 = q.1 ∧ (lookupStr p.1 fts = none → q = p)) l out := by
      intro l
      induction l with
      | nil =>
        intro out h
        rw [marshalInputFields_nil] at h
        simp at h
        subst h
        exact List.Forall₂.nil
      | cons p rest ih =>
        obtain ⟨k, v0⟩ := p
        intro out h
        rw [marshalInputFields_cons] at h
        cases hfv : marshalInputField scalars ts fts k v0 with
        | error e => rw [hfv] at h; simp at h
        | ok w0 =>
          rw [hfv] at h
          cases hrest : marshalInputFields scalars ts fts rest with
          | error e => rw [hrest] at h; simp at h
          | ok rest' =>
            rw [hrest] at h
            simp at h
            subst h
            refine List.Forall₂.cons ⟨rfl, ?_⟩ (ih rest' hrest)
            intro hnone
            rw [hfield_unknown k v0 hnone] at hfv
            simp at hfv
            subst hfv
            rfl
    intro out h
    rw [marshalInputValue_vobj] at h
    cases hf : marshalInputFields scalars ts fts kvs with
    | error e => rw [hf] at h; simp at h
    | ok out' =>
      rw [hf] at h
      simp at h
      subst h
      exact hinp kvs out' hf

/-- C7 witness: a key missing from the declared fields survives both the
selection walk and the input walk unchanged, next to a coerced key. -/
theorem unknown_keys_passthrough_witness :
    List.Forall₂
      (fun (p q : String × JValue) => p.1 = q.1 ∧
        (lookupStr p.1 [("createdAt", SelNode.mk "DateTime" "createdAt" none)] = none → q = p))
      [("createdAt", .vint 4), ("extra", .vstr "kept")]
      [("createdAt", .vdate 4), ("extra", .vstr "kept")] := by
  refine (unknown_keys_passthrough .unmarshal dtScalars "TodoItem" "item"
    [("createdAt", SelNode.mk "DateTime" "createdAt" none)]).1
    [("createdAt", .vint 4), ("extra", .vstr "kept")]
    [("createdAt", .vdate 4), ("extra", .vstr "kept")] ?_
  simp [coerceValue, coerceFields, coerceLeaf, lookupStr, dtScalars, dtUnmarshalFn,
    SelNode.fields, SelNode.type]

-- Embedding of the kit load generator, src/vite/transforms/kit/load.ts.

/-- A query discovered for a route: its operation name and whether the
operation requires variables. Mirrors the LoadTarget entries add_load
receives; the source field named variables is needsVariables here because
variables is a reserved word in Lean. -/
structure LoadTarget where
  name : String
  needsVariables : Bool

/-- Modelled from the spec: the per-query name of the exported
variable-producing function the generator looks up (query_variable_fn of
the query transform module, absent from src). Only its injectivity in the
query name matters here. -/
def query_variable_fn (name : String) : String := name ++ "Variables"

/-- Hook kinds the generated load awaits. -/
inductive HookVariant where
  | before
  | after
deriving DecidableEq

/-- Statements of the load function generated by add_load, one constructor
per generated statement shape: the four leading declarations, the
per-query input computation and load-promise push, the result declaration,
the try/catch around the awaited Promise.all, the before and after hook
invocations, and the final merged return. -/
inductive GenStmt where
  | declContext
  | declConfig
  | declPromises
  | declInputs
  | computeInputAssign (query : String) (hasVariableFn : Bool)
  | pushLoad (query : String) (blocking : Bool)
  | declResult
  | tryAwaitAll (onError : Bool)
  | hookCall (variant : HookVariant)
  | returnMerged
deriving DecidableEq

/-- Splice of new items into a list at an index with no deletion: the
Array.prototype.splice(index, 0, ...items) calls of the generator. -/
def spliceIn {α : Type} (body : List α) (i : Nat) (xs : List α) : List α :=
  body.take i ++ xs ++ body.drop i

/-- Per-query insertion loop of add_load, carrying the moving insert
index: each query contributes its input computation and its load push. -/
def insertQueries (exps : List String) (blocking : Bool) :
    List LoadTarget → List GenStmt → Nat → List GenStmt × Nat
  | [], body, i => (body, i)
  | q :: rest, body, i =>
    insertQueries exps blocking rest
      (spliceIn
        (spliceIn body i
          [.computeInputAssign q.name (exps.contains (query_variable_fn q.name))])
        (i + 1) [.pushLoad q.name blocking])
      (i + 2)

/-- The per-query insertion pass of add_load: the five base statements of
the generated load with the query statements spliced in from index 4,
together with the final insert index. -/
def addLoadCore (queries : List LoadTarget) (exps : List String) :
    List GenStmt × Nat :=
  insertQueries exps (exps.contains "afterLoad" || exps.contains "onError") queries
    [.declContext, .declConfig, .declPromises, .declInputs, .returnMerged] 4

/-- The result declaration and the try/catch around the awaited
Promise.all, spliced in at the final insert index. -/
def addLoadTry (queries : List LoadTarget) (exps : List String) : List GenStmt :=
  spliceIn (addLoadCore queries exps).1 (addLoadCore queries exps).2
    [.declResult, .tryAwaitAll (exps.contains "onError")]

/-- The beforeLoad hook invocation, spliced in at index 1 when that export
exists. -/
def addLoadBefore (exps : List String) (body : List GenStmt) : List GenStmt :=
  if exps.contains "beforeLoad" then spliceIn body 1 [.hookCall .before] else body

/-- The afterLoad hook invocation, spliced in just before the final return
when that export exists. -/
def addLoadAfter (exps : List String) (body : List GenStmt) : List GenStmt :=
  if exps.contains "afterLoad" then spliceIn body (body.length - 1) [.hookCall .after]
  else body

/-- add_load of src/vite/transforms/kit/load.ts: it does nothing when a
load export already exists or there is no query, aborts when a query that
requires variables has no exported variable function, and otherwise builds
the exported load body: the four declarations and the return, the
per-query statements spliced in from index 4, the result declaration and
the try/catch spliced in after them, the before hook spliced in at index 1
and the after hook before the return. The catch routes the caught error to
the onError hook when that export exists and rethrows it otherwise, and
each load call is blocking exactly when an afterLoad or onError export
exists. -/
def add_load (queries : List LoadTarget) (exps : List String) :
    Option (List GenStmt) :=
  if exps.contains "load" || queries.isEmpty then none
  else if queries.any (fun q => q.needsVariables && !(exps.contains (query_variable_fn q.name)))
    then none
  else some (addLoadAfter exps (addLoadBefore exps (addLoadTry queries exps)))

/-- Failures a run of the generated load can encounter: the error thrown
while computing the input of a given query (its variable-producing logic),
and the rejection of the awaited Promise.all of the load calls (the fetch
transport). -/
structure LoadRun where
  varError : String → Option String
  fetchError : Option String

/-- Outcome of one run of the generated load: a normal return carrying the
errors routed to the onError hook, or an error thrown to the caller. -/
inductive LoadOutcome where
  | returned (routed : List String)
  | threw (e : String)
deriving DecidableEq

/-- Evaluation of the generated statements under JavaScript control flow:
statements run in order; an awaited computeInput that throws outside any
try statement propagates to the caller at once; the try statement around
the awaited Promise.all catches its rejection (possible once a load call
has been pushed) and either routes it to the onError hook or rethrows it;
a return ends the run. -/
def execStmts (run : LoadRun) : List GenStmt → Bool → List String → LoadOutcome
  | [], _, routed => .returned routed
  | s :: rest, pushed, routed =>
    match s with
    | .computeInputAssign q hasVarFn =>
      if hasVarFn then
        match run.varError q with
        | some e => .threw e
        | none => execStmts run rest pushed routed
      else execStmts run rest pushed routed
    | .pushLoad _ _ => execStmts run rest true routed
    | .tryAwaitAll onErr =>
      match (if pushed then run.fetchError else none) with
      | some e =>
        if onErr then execStmts run rest pushed (routed ++ [e])
        else .threw e
      | none => execStmts run rest pushed routed
    | .returnMerged => .returned routed
    | _ => execStmts run rest pushed routed

-- Embedding of the route-component branch of kit_load_generator.

/-- One declarator of a variable declaration, as far as the generator
inspects it: an identifier with its name, or any other pattern. -/
inductive Declarator where
  | ident (name : String)
  | other
deriving DecidableEq

/-- A top-level script statement as far as the generator inspects it: a
variable declaration with its kind and declarators, the same under an
export, another export, or anything else. -/
inductive JsStmt where
  | varDecl (kind : String) (declarators : List Declarator)
  | exportVarDecl (kind : String) (declarators : List Declarator)
  | exportOther
  | otherStmt
deriving DecidableEq

/-- Error built by unexported_data_error of load.ts, carrying the route
filepath. -/
structure RouteError where
  filepath : String
  message : String
  description : String
deriving DecidableEq

def unexported_data_error (filepath : String) : RouteError :=
  { filepath := filepath
    message := "Encountered unexported local variable name data"
    description :=
      "This is not allowed in a route since it would conflict with Houdini generated code" }

/-- The has_data probe: an export of a variable declaration with exactly
one declarator whose identifier is data. -/
def is_exported_data : JsStmt → Bool
  | .exportVarDecl _ [Declarator.ident n] => n == "data"
  | _ => false

/-- The has_unexported_data probe: a bare variable declaration with exactly
one declarator whose identifier is data. -/
def is_unexported_data : JsStmt → Bool
  | .varDecl _ [Declarator.ident n] => n == "data"
  | _ => false

/-- The route-component branch of kit_load_generator (load.ts lines
79 to 114): on a route with queries, a bare variable declaration named
data raises the unexported-data error for the filepath; otherwise, when no
exported data declaration exists, an exported let data declaration is
spliced in at the insert index (the splice inserts nothing when the
declaration exists). -/
def kit_load_generator_route (filepath : String) (queriesCount : Nat)
    (insert_index : Nat) (body : List JsStmt) : Except RouteError (List JsStmt) :=
  if 0 < queriesCount then
    let has_data := body.any is_exported_data
    let has_unexported_data := body.any is_unexported_data
    if has_unexported_data then .error (unexported_data_error filepath)
    else .ok (spliceIn body insert_index
      (if !has_data then [JsStmt.exportVarDecl "let" [.ident "data"]] else []))
  else .ok body

-- Splice and generated-body characterization lemmas.

theorem spliceIn_append {α : Type} (pre tail xs : List α) :
    spliceIn (pre ++ tail) pre.length xs = pre ++ xs ++ tail := by
  simp [spliceIn]

theorem spliceIn_one {α : Type} (a : α) (Z xs : List α) :
    spliceIn (a :: Z) 1 xs = a :: (xs ++ Z) := by
  simp [spliceIn]

theorem spliceIn_before_last {α : Type} (Y : List α) (z : α) (xs : List α) :
    spliceIn (Y ++ [z]) ((Y ++ [z]).length - 1) xs = Y ++ xs ++ [z] := by
  have h : (Y ++ [z]).length - 1 = Y.length := by simp
  rw [h]
  exact spliceIn_append Y [z] xs

theorem spliceIn_append_left {α : Type} (Y tail xs : List α) (i : Nat)
    (h : i ≤ Y.length) :
    spliceIn (Y ++ tail) i xs = spliceIn Y i xs ++ tail := by
  simp [spliceIn, List.take_append_eq_append_take, List.drop_append_eq_append_drop,
    Nat.sub_eq_zero_of_le h]

/-- Flat form of the statements the per-query insertion loop produces. -/
def queryStmts (exps : List String) (blocking : Bool) : List LoadTarget → List GenStmt
  | [] => []
  | q :: rest =>
    .computeInputAssign q.name (exps.contains (query_variable_fn q.name)) ::
    .pushLoad q.name blocking :: queryStmts exps blocking rest

theorem queryStmts_length (exps : List String) (blocking : Bool)
    (qs : List LoadTarget) :
    (queryStmts exps blocking qs).length = 2 * qs.length := by
  induction qs with
  | nil => rfl
  | cons q rest ih => simp [queryStmts, ih]; omega

theorem insertQueries_spec (exps : List String) (blocking : Bool) :
    ∀ (qs : List LoadTarget) (pre tail : List GenStmt),
      insertQueries exps blocking qs (pre ++ tail) pre.length =
        (pre ++ queryStmts exps blocking qs ++ tail, pre.length + 2 * qs.length) := by
  intro qs
  induction qs with
  | nil =>
    intro pre tail
    simp [insertQueries, queryStmts]
  | cons q rest ih =>
    intro pre tail
    rw [insertQueries, spliceIn_append pre tail
      [.computeInputAssign q.name (exps.contains (query_variable_fn q.name))]]
    rw [show pre.length + 1 =
      (pre ++ [GenStmt.computeInputAssign q.name
        (exps.contains (query_variable_fn q.name))]).length from by simp]
    rw [spliceIn_append
      (pre ++ [GenStmt.computeInputAssign q.name (exps.contains (query_variable_fn q.name))])
      tail [.pushLoad q.name blocking]]
    rw [show (pre ++ [GenStmt.computeInputAssign q.name
        (exps.contains (query_variable_fn q.name))]) ++ [GenStmt.pushLoad q.name blocking] ++ tail =
      (pre ++ [GenStmt.computeInputAssign q.name (exps.contains (query_variable_fn q.name)),
        GenStmt.pushLoad q.name blocking]) ++ tail from by simp]
    rw [show pre.length + 2 =
      (pre ++ [GenStmt.computeInputAssign q.name (exps.contains (query_variable_fn q.name)),
        GenStmt.pushLoad q.name blocking]).length from by simp]
    rw [ih]
    simp [queryStmts]
    omega

-- Step lemmas for the execution of generated statements.

theorem exec_declContext (run : LoadRun) (rest : List GenStmt) (p : Bool) (r : List String) :
    execStmts run (.declContext :: rest) p r = execStmts run rest p r := rfl

theorem exec_declConfig (run : LoadRun) (rest : List GenStmt) (p : Bool) (r : List String) :
    execStmts run (.declConfig :: rest) p r = execStmts run rest p r := rfl

theorem exec_declPromises (run : LoadRun) (rest : List GenStmt) (p : Bool) (r : List String) :
    execStmts run (.declPromises :: rest) p r = execStmts run rest p r := rfl

theorem exec_declInputs (run : LoadRun) (rest : List GenStmt) (p : Bool) (r : List String) :
    execStmts run (.declInputs :: rest) p r = execStmts run rest p r := rfl

theorem exec_declResult (run : LoadRun) (rest : List GenStmt) (p : Bool) (r : List String) :
    execStmts run (.declResult :: rest) p r = execStmts run rest p r := rfl

theorem exec_hookCall (run : LoadRun) (v : HookVariant) (rest : List GenStmt)
    (p : Bool) (r : List String) :
    execStmts run (.hookCall v :: rest) p r = execStmts run rest p r := rfl

theorem exec_pushLoad (run : LoadRun) (q : String) (b : Bool) (rest : List GenStmt)
    (p : Bool) (r : List String) :
    execStmts run (.pushLoad q b :: rest) p r = execStmts run rest true r := rfl

theorem exec_computeInput_false (run : LoadRun) (q : String) (rest : List GenStmt)
    (p : Bool) (r : List String) :
    execStmts run (.computeInputAssign q false :: rest) p r =
      execStmts run rest p r := rfl

theorem exec_computeInput_true (run : LoadRun) (q : String) (rest : List GenStmt)
    (p : Bool) (r : List String) :
    execStmts run (.computeInputAssign q true :: rest) p r =
      match run.varError q with
      | some e => .threw e
      | none => execStmts run rest p r := rfl

theorem exec_tryAwaitAll (run : LoadRun) (onErr : Bool) (rest : List GenStmt)
    (p : Bool) (r : List String) :
    execStmts run (.tryAwaitAll onErr :: rest) p r =
      match (if p then run.fetchError else none) with
      | some e => if onErr then execStmts run rest p (r ++ [e]) else .threw e
      | none => execStmts run rest p r := rfl

theorem exec_return (run : LoadRun) (rest : List GenStmt) (p : Bool) (r : List String) :
    execStmts run (.returnMerged :: rest) p r = .returned r := rfl

theorem addLoadBefore_pos (exps : List String) (body : List GenStmt)
    (h : exps.contains "beforeLoad" = true) :
    addLoadBefore exps body = spliceIn body 1 [.hookCall .before] := by
  unfold addLoadBefore
  rw [h]
  simp

theorem addLoadBefore_neg (exps : List String) (body : List GenStmt)
    (h : exps.contains "beforeLoad" = false) :
    addLoadBefore exps body = body := by
  unfold addLoadBefore
  rw [h]
  simp

theorem addLoadAfter_pos (exps : List String) (body : List GenStmt)
    (h : exps.contains "afterLoad" = true) :
    addLoadAfter exps body = spliceIn body (body.length - 1) [.hookCall .after] := by
  unfold addLoadAfter
  rw [h]
  simp

theorem addLoadAfter_neg (exps : List String) (body : List GenStmt)
    (h : exps.contains "afterLoad" = false) :
    addLoadAfter exps body = body := by
  unfold addLoadAfter
  rw [h]
  simp

theorem addLoadTry_eq (queries : List LoadTarget) (exps : List String) :
    addLoadTry queries exps =
      ([GenStmt.declContext, .declConfig, .declPromises, .declInputs] ++
        queryStmts exps (exps.contains "afterLoad" || exps.contains "onError") queries ++
        [.declResult, .tryAwaitAll (exps.contains "onError")]) ++ [.returnMerged] := by
  have hcore : addLoadCore queries exps =
      (([GenStmt.declContext, .declConfig, .declPromises, .declInputs] ++
        queryStmts exps (exps.contains "afterLoad" || exps.contains "onError") queries) ++
        [.returnMerged],
       4 + 2 * queries.length) :=
    insertQueries_spec exps (exps.contains "afterLoad" || exps.contains "onError")
      queries [.declContext, .declConfig, .declPromises, .declInputs] [.returnMerged]
  unfold addLoadTry
  rw [hcore]
  rw [show (4 + 2 * queries.length) =
    ([GenStmt.declContext, .declConfig, .declPromises, .declInputs] ++
      queryStmts exps (exps.contains "afterLoad" || exps.contains "onError") queries).length
    from by simp [queryStmts_length]; omega]
  exact spliceIn_append _ _ _

/-- Exec ignores a replacement of the statements that follow a common
prefix by statements with the same evaluation. -/
theorem exec_congr_suffix (run : LoadRun) (rest1 rest2 : List GenStmt)
    (h : ∀ (p : Bool) (r : List String),
      execStmts run rest1 p r = execStmts run rest2 p r) :
    ∀ (l : List GenStmt) (p : Bool) (r : List String),
      execStmts run (l ++ rest1) p r = execStmts run (l ++ rest2) p r := by
  intro l
  induction l with
  | nil => intro p r; simpa using h p r
  | cons s l ih =>
    intro p r
    rw [List.cons_append, List.cons_append]
    cases s with
    | declContext => rw [exec_declContext, exec_declContext]; exact ih p r
    | declConfig => rw [exec_declConfig, exec_declConfig]; exact ih p r
    | declPromises => rw [exec_declPromises, exec_declPromises]; exact ih p r
    | declInputs => rw [exec_declInputs, exec_declInputs]; exact ih p r
    | declResult => rw [exec_declResult, exec_declResult]; exact ih p r
    | hookCall v => rw [exec_hookCall, exec_hookCall]; exact ih p r
    | pushLoad q b => rw [exec_pushLoad, exec_pushLoad]; exact ih true r
    | returnMerged => rw [exec_return, exec_return]
    | computeInputAssign q hv =>
      cases hv with
      | false => rw [exec_computeInput_false, exec_computeInput_false]; exact ih p r
      | true =>
        rw [exec_computeInput_true, exec_computeInput_true]
        cases run.varError q with
        | some e => rfl
        | none => exact ih p r
    | tryAwaitAll oe =>
      rw [exec_tryAwaitAll, exec_tryAwaitAll]
      cases (if p then run.fetchError else none) with
      | some e =>
        cases oe with
        | true => simp only [if_true]; exact ih p (r ++ [e])
        | false => rfl
      | none => exact ih p r

/-- Evaluation of the whole generated load body reduces to evaluation of
the per-query statements followed by the result declaration, the try/catch
and the return: the four leading declarations and the optional hook calls
do not affect the outcome. -/
theorem exec_addLoadBody (run : LoadRun) (queries : List LoadTarget)
    (exps : List String) (p : Bool) (r : List String) :
    execStmts run (addLoadAfter exps (addLoadBefore exps (addLoadTry queries exps))) p r =
      execStmts run
        (queryStmts exps (exps.contains "afterLoad" || exps.contains "onError") queries ++
          (GenStmt.declResult :: GenStmt.tryAwaitAll (exps.contains "onError") ::
            [GenStmt.returnMerged])) p r := by
  rw [addLoadTry_eq]
  set qs := queryStmts exps (exps.contains "afterLoad" || exps.contains "onError") queries
  set oe := exps.contains "onError"
  have hsuffix : ∀ (p : Bool) (r : List String),
      execStmts run (GenStmt.hookCall .after :: [GenStmt.returnMerged]) p r =
        execStmts run [GenStmt.returnMerged] p r := by
    intro p r
    rw [exec_hookCall]
  have htail : ∀ (p : Bool) (r : List String),
      execStmts run (qs ++ (GenStmt.declResult :: GenStmt.tryAwaitAll oe ::
        GenStmt.hookCall .after :: [GenStmt.returnMerged])) p r =
      execStmts run (qs ++ (GenStmt.declResult :: GenStmt.tryAwaitAll oe ::
        [GenStmt.returnMerged])) p r := by
    intro p r
    have h := exec_congr_suffix run (GenStmt.hookCall .after :: [GenStmt.returnMerged])
      [GenStmt.returnMerged] hsuffix
      (qs ++ [GenStmt.declResult, GenStmt.tryAwaitAll oe]) p r
    rw [List.append_assoc, List.append_assoc] at h
    exact h
  by_cases hbl : exps.contains "beforeLoad" = true
  · rw [addLoadBefore_pos _ _ hbl]
    rw [spliceIn_append_left
      ([GenStmt.declContext, GenStmt.declConfig, GenStmt.declPromises,
        GenStmt.declInputs] ++ qs ++
        [GenStmt.declResult, GenStmt.tryAwaitAll oe])
      [GenStmt.returnMerged] [GenStmt.hookCall .before] 1
      (by simp only [List.length_append, List.length_cons, List.length_nil]; omega)]
    rw [show spliceIn
        ([GenStmt.declContext, GenStmt.declConfig, GenStmt.declPromises,
          GenStmt.declInputs] ++ qs ++
          [GenStmt.declResult, GenStmt.tryAwaitAll oe]) 1 [GenStmt.hookCall .before] =
      GenStmt.declContext :: [GenStmt.hookCall .before] ++
        (([GenStmt.declConfig, GenStmt.declPromises, GenStmt.declInputs] ++ qs) ++
          [GenStmt.declResult, GenStmt.tryAwaitAll oe]) from spliceIn_one _ _ _]
    by_cases hal : exps.contains "afterLoad" = true
    · rw [addLoadAfter_pos _ _ hal, spliceIn_before_last]
      simp only [List.cons_append, List.append_assoc, List.nil_append]
      rw [exec_declContext, exec_hookCall, exec_declConfig, exec_declPromises,
        exec_declInputs]
      exact htail p r
    · rw [addLoadAfter_neg _ _ (by simpa using hal)]
      simp only [List.cons_append, List.append_assoc, List.nil_append]
      rw [exec_declContext, exec_hookCall, exec_declConfig, exec_declPromises,
        exec_declInputs]
  · rw [addLoadBefore_neg _ _ (by simpa using hbl)]
    by_cases hal : exps.contains "afterLoad" = true
    · rw [addLoadAfter_pos _ _ hal, spliceIn_before_last]
      simp only [List.cons_append, List.append_assoc, List.nil_append]
      rw [exec_declContext, exec_declConfig, exec_declPromises, exec_declInputs]
      exact htail p r
    · rw [addLoadAfter_neg _ _ (by simpa using hal)]
      simp only [List.cons_append, List.append_assoc, List.nil_append]
      rw [exec_declContext, exec_declConfig, exec_declPromises, exec_declInputs]

/-- When no variable function throws, the per-query statements only push
load promises: execution continues behind them with the pushed flag set. -/
theorem exec_queryStmts_clean (run : LoadRun) (exps : List String) (blocking : Bool) :
    ∀ (qs : List LoadTarget) (rest : List GenStmt) (p : Bool) (r : List String),
      (∀ q ∈ qs, exps.contains (query_variable_fn q.name) = true →
        run.varError q.name = none) →
      execStmts run (queryStmts exps blocking qs ++ rest) p r =
        execStmts run rest (p || !qs.isEmpty) r := by
  intro qs
  induction qs with
  | nil =>
    intro rest p r _
    simp [queryStmts]
  | cons q qs' ih =>
    intro rest p r hclean
    show execStmts run
      ((GenStmt.computeInputAssign q.name (exps.contains (query_variable_fn q.name)) ::
        GenStmt.pushLoad q.name blocking :: queryStmts exps blocking qs') ++ rest) p r = _
    simp only [List.cons_append]
    cases hc : exps.contains (query_variable_fn q.name) with
    | false =>
      rw [exec_computeInput_false, exec_pushLoad,
        ih rest true r (fun x hx hcx => hclean x (List.mem_cons_of_mem _ hx) hcx)]
      simp
    | true =>
      rw [exec_computeInput_true]
      rw [hclean q (List.mem_cons_self _ _) hc]
      show execStmts run (GenStmt.pushLoad q.name blocking ::
        (queryStmts exps blocking qs' ++ rest)) p r = _
      rw [exec_pushLoad,
        ih rest true r (fun x hx hcx => hclean x (List.mem_cons_of_mem _ hx) hcx)]
      simp

/-- A variable function of the first query that throws makes the whole run
throw at once, regardless of hooks: its computeInput statement runs before
the try/catch. -/
theorem exec_queryStmts_throw (run : LoadRun) (exps : List String) (blocking : Bool)
    (q : LoadTarget) (qs' : List LoadTarget) (rest : List GenStmt) (p : Bool)
    (r : List String) (e : String)
    (hc : exps.contains (query_variable_fn q.name) = true)
    (he : run.varError q.name = some e) :
    execStmts run (queryStmts exps blocking (q :: qs') ++ rest) p r = .threw e := by
  show execStmts run
    ((GenStmt.computeInputAssign q.name (exps.contains (query_variable_fn q.name)) ::
      GenStmt.pushLoad q.name blocking :: queryStmts exps blocking qs') ++ rest) p r = _
  rw [hc]
  simp only [List.cons_append, exec_computeInput_true, he]

/-- C5 (amended): in the load generated by add_load, an error that rejects
the awaited Promise.all of the load calls (the fetch transport) is routed
to the onError hook and not thrown when that hook is registered, and is
rethrown to the caller when it is not; but an error thrown by the
variable-producing logic of a query is always rethrown to the caller, even
when an onError hook is registered, because the generated computeInput
statements run before the try/catch that feeds the hook. -/
theorem load_error_routing :
    ∀ (queries : List LoadTarget) (exps : List String) (body : List GenStmt)
      (run : LoadRun),
      add_load queries exps = some body →
      ((∀ e, (∀ q ∈ queries, exps.contains (query_variable_fn q.name) = true →
            run.varError q.name = none) →
          run.fetchError = some e →
          ((exps.contains "onError" = true →
            execStmts run body false [] = .returned [e]) ∧
           (exps.contains "onError" = false →
            execStmts run body false [] = .threw e))) ∧
       (∀ (q : LoadTarget) (qs' : List LoadTarget) (e : String),
          queries = q :: qs' →
          exps.contains (query_variable_fn q.name) = true →
          run.varError q.name = some e →
          execStmts run body false [] = .threw e)) := by
  intro queries exps body run h
  unfold add_load at h
  by_cases h1 : (exps.contains "load" || queries.isEmpty) = true
  · rw [if_pos h1] at h
    exact absurd h (by simp)
  · rw [if_neg h1] at h
    by_cases h2 : (queries.any fun q => q.needsVariables &&
        !(exps.contains (query_variable_fn q.name))) = true
    · rw [if_pos h2] at h
      exact absurd h (by simp)
    · rw [if_neg h2] at h
      have hbody : addLoadAfter exps (addLoadBefore exps (addLoadTry queries exps)) = body := by
        injection h
      subst hbody
      have hne : queries.isEmpty = false := by
        cases hq : queries.isEmpty
        · rfl
        · exfalso
          apply h1
          rw [hq]
          simp
      constructor
      · intro e hclean hfe
        rw [exec_addLoadBody]
        rw [exec_queryStmts_clean run exps _ queries _ false [] hclean]
        rw [show (false || !queries.isEmpty) = true from by rw [hne]; rfl]
        rw [exec_declResult, exec_tryAwaitAll]
        constructor
        · intro hoe
          rw [hoe]
          simp [hfe, exec_return]
        · intro hoe
          rw [hoe]
          simp [hfe]
      · intro q qs' e hq hcq hve
        subst hq
        rw [exec_addLoadBody]
        exact exec_queryStmts_throw run exps _ q qs' _ false [] e hcq hve

-- Concrete data for the error-routing claim.

def cexQueries : List LoadTarget := [⟨"MyQuery", true⟩]

def cexExports : List String := ["MyQueryVariables", "onError"]

def cexExportsNoHook : List String := ["MyQueryVariables"]

/-- Run whose variable-producing function for MyQuery throws. -/
def cexRun : LoadRun := ⟨fun q => if q == "MyQuery" then some "boom" else none, none⟩

/-- Run whose fetch transport rejects. -/
def witRun : LoadRun := ⟨fun _ => none, some "netfail"⟩

/-- The load body generated for the counterexample route (onError
registered). -/
def cexBody : List GenStmt :=
  [.declContext, .declConfig, .declPromises, .declInputs,
   .computeInputAssign "MyQuery" true, .pushLoad "MyQuery" true,
   .declResult, .tryAwaitAll true, .returnMerged]

/-- The load body generated when no hook is registered. -/
def cexBodyNoHook : List GenStmt :=
  [.declContext, .declConfig, .declPromises, .declInputs,
   .computeInputAssign "MyQuery" true, .pushLoad "MyQuery" false,
   .declResult, .tryAwaitAll false, .returnMerged]

/-- C5 counterexample: with an onError hook registered, an error raised by
the variable-producing logic of the only query is thrown to the caller by
the generated load, not routed to the hook, so the claim as stated is
false for variable-function errors. -/
theorem variable_error_bypasses_onError_cex :
    cexExports.contains "onError" = true ∧
    (add_load cexQueries cexExports).map (fun b => execStmts cexRun b false []) =
      some (.threw "boom") := by
  constructor
  · rfl
  · rfl

/-- C5 witness: a fetch-transport rejection is routed to the registered
onError hook and the load returns; without the hook the same rejection is
rethrown. -/
theorem load_error_routing_witness :
    execStmts witRun cexBody false [] = .returned ["netfail"] ∧
    execStmts witRun cexBodyNoHook false [] = .threw "netfail" := by
  constructor
  · exact ((load_error_routing cexQueries cexExports cexBody witRun rfl).1 "netfail"
      (fun q hq hc => rfl) rfl).1 rfl
  · exact ((load_error_routing cexQueries cexExportsNoHook cexBodyNoHook witRun rfl).1
      "netfail" (fun q hq hc => rfl) rfl).2 rfl

/-- C10: on a route component with queries, a local (non-exported)
variable declaration named data makes the generator raise the
unexported-data error, which carries the filepath, instead of producing a
body; and when the route declares no data prop at all, the generator
splices in an exported let data declaration, which is then part of the
output. -/
theorem route_data_declaration (fp : String) (qc insert_index : Nat)
    (body : List JsStmt) (hq : 0 < qc) :
    (body.any is_unexported_data = true →
      kit_load_generator_route fp qc insert_index body =
        .error (unexported_data_error fp) ∧
      (unexported_data_error fp).filepath = fp) ∧
    (body.any is_unexported_data = false → body.any is_exported_data = false →
      kit_load_generator_route fp qc insert_index body =
        .ok (spliceIn body insert_index [JsStmt.exportVarDecl "let" [.ident "data"]]) ∧
      JsStmt.exportVarDecl "let" [.ident "data"] ∈
        spliceIn body insert_index [JsStmt.exportVarDecl "let" [.ident "data"]]) := by
  constructor
  · intro hun
    refine ⟨?_, rfl⟩
    unfold kit_load_generator_route
    rw [if_pos hq, hun]
    simp
  · intro hun hex
    constructor
    · unfold kit_load_generator_route
      rw [if_pos hq, hun, hex]
      simp
    · unfold spliceIn
      exact List.mem_append_left _ (List.mem_append_right _ (List.mem_singleton.mpr rfl))

/-- C10 witness: a route with one query and a local const data declaration
errors with the filepath; a route with no data declaration gets the
exported let data inserted. -/
theorem route_data_declaration_witness :
    kit_load_generator_route "src/routes/+page.svelte" 1 0
      [JsStmt.varDecl "const" [.ident "data"]] =
      .error (unexported_data_error "src/routes/+page.svelte") ∧
    kit_load_generator_route "src/routes/+page.svelte" 1 0 [JsStmt.otherStmt] =
      .ok [JsStmt.exportVarDecl "let" [.ident "data"], JsStmt.otherStmt] := by
  constructor
  · exact ((route_data_declaration "src/routes/+page.svelte" 1 0
      [JsStmt.varDecl "const" [.ident "data"]] (by decide)).1 (by decide)).1
  · have h := ((route_data_declaration "src/routes/+page.svelte" 1 0
      [JsStmt.otherStmt] (by decide)).2 (by decide) (by decide)).1
    simpa [spliceIn] using h

end Houdini
